import Mathlib

/-!
Verification of the statistics core of TrafficStudyViewer
(docs/js/utils/stats.js, with date helpers from docs/js/utils/dateUtils.js).

Embedding conventions:
- JS numbers are modelled as `ℚ` (all speed/percentile arithmetic in the
  source is exact on the inputs the claims are about).
- Optional numeric record fields are `Option ℚ`; JS truthiness tests such as
  `if (row.avg_speed)` treat both a missing field and the value `0` as falsy,
  which is modelled by matching on `some v` together with `v ≠ 0`.
- `vehicle_count` and `violator_count` are non-negative integers; a missing
  field behaves exactly like `0` in every use in the source (`row.vehicles
  || 0` and `row.vehicles || 1`), so they are modelled as plain `ℕ`.
- Timestamps are modelled at the resolution the aggregators use: a record's
  `datetime` is `Option ℕ`, the number of whole hours since an arbitrary
  epoch (`none` is a missing timestamp).  The calendar-day key produced by
  `getDateKey` becomes `t / 24`, and the date-hour key of the hourly
  aggregator becomes `t` itself.  Chronological comparison of the zero-padded
  `YYYY-MM-DD(-HH)` key strings in the source coincides with `ℕ` order on
  these keys.  The display-label fields (`label`), which are pure formatting,
  are omitted from the bucket model; no claim mentions them.
- The JS `Map` used for grouping is modelled as an association list in
  insertion order; `Map.set` on an existing key updates the (unique) first
  entry with that key.
-/

namespace TrafficStats

/-- Interval record (one row of study data) as consumed by stats.js. -/
structure Row where
  datetime : Option ℕ
  vehicles : ℕ
  violators : ℕ
  avg_speed : Option ℚ
  peak_speed : Option ℚ
  p85 : Option ℚ
deriving Repr, DecidableEq

/-- Weight used by the source as `row.vehicles || 1`: a zero (or missing)
vehicle count is replaced by 1. -/
def weightOf (v : ℕ) : ℕ := if v = 0 then 1 else v

/-- Source `calculate85thPercentile` (stats.js lines 12-18): sort ascending,
take the entry at `ceil(0.85 * n) - 1`, clamped below by 0.  Empty → 0. -/
def calculate85thPercentile (values : List ℚ) : ℚ :=
  if values.isEmpty then 0
  else
    let sorted := List.insertionSort (fun a b => a ≤ b) values
    let index : ℤ := ⌈(85 / 100 : ℚ) * sorted.length⌉ - 1
    sorted.getD (max 0 index).toNat 0

/-- Source `sum` (stats.js line 25): `reduce((acc, val) => acc + (val || 0), 0)`;
on rationals `val || 0` is the identity. -/
def sum (values : List ℚ) : ℚ :=
  values.foldl (fun acc val => acc + val) 0

/-- Source `average` (stats.js line 34). -/
def average (values : List ℚ) : ℚ :=
  if values.isEmpty then 0 else sum values / values.length

/-- Speed bin `{min, max, label}`; `max = none` models the `Infinity` bound of
the final bin. -/
structure SpeedBin where
  min : ℚ
  max : Option ℚ
  label : String
deriving Repr, DecidableEq

/-- Comparison `speed < bin.max` where `max` may be `Infinity`. -/
def ltMaxP (speed : ℚ) : Option ℚ → Prop
  | none => True
  | some m => speed < m

instance instDecLtMaxP (speed : ℚ) (o : Option ℚ) : Decidable (ltMaxP speed o) :=
  match o with
  | none => inferInstanceAs (Decidable True)
  | some m => inferInstanceAs (Decidable (speed < m))

/-- Source `SPEED_BINS_8` (stats.js lines 406-415). -/
def SPEED_BINS_8 : List SpeedBin :=
  [⟨1, some 10, "1-10"⟩, ⟨10, some 20, "10-20"⟩, ⟨20, some 30, "20-30"⟩,
   ⟨30, some 40, "30-40"⟩, ⟨40, some 50, "40-50"⟩, ⟨50, some 60, "50-60"⟩,
   ⟨60, some 70, "60-70"⟩, ⟨70, none, "70+"⟩]

/-- Source `SPEED_BINS_12` (stats.js lines 420-433). -/
def SPEED_BINS_12 : List SpeedBin :=
  [⟨5, some 10, "5-10"⟩, ⟨11, some 15, "11-15"⟩, ⟨16, some 20, "16-20"⟩,
   ⟨21, some 25, "21-25"⟩, ⟨26, some 30, "26-30"⟩, ⟨31, some 35, "31-35"⟩,
   ⟨36, some 40, "36-40"⟩, ⟨41, some 45, "41-45"⟩, ⟨46, some 50, "46-50"⟩,
   ⟨51, some 55, "51-55"⟩, ⟨56, some 60, "56-60"⟩, ⟨61, none, "61+"⟩]

/-- Inner loop of `calculateSpeedBins` (stats.js lines 445-454) for one speed.
The source iterates an index `i` over `bins`, reading and writing `counts[i]`;
this is rendered as structural recursion over the bin list and the count list
in lockstep (`i = bins.length - 1` becomes "the tail is empty").  The first
bin with `min ≤ speed < max` is incremented and the loop breaks; the last bin
is additionally incremented (without break) when the first test fails there
but `speed ≥ min` holds. -/
def binAssignLoop (speed : ℚ) : List SpeedBin → List ℕ → List ℕ
  | b :: bs, c :: cs =>
    if b.min ≤ speed ∧ ltMaxP speed b.max then (c + 1) :: cs
    else if bs = [] ∧ b.min ≤ speed then (c + 1) :: binAssignLoop speed bs cs
    else c :: binAssignLoop speed bs cs
  | _, counts => counts

/-- Source `calculateSpeedBins` (stats.js lines 441-458). -/
def calculateSpeedBins (speeds : List ℚ) (bins : List SpeedBin) : List ℕ :=
  speeds.foldl (fun counts speed => binAssignLoop speed bins counts)
    (List.replicate bins.length 0)

/-- Shared interpolation loop of `calculate85thFromBins` and
`calculate50thFromBins` (stats.js lines 474-485 and 504-514; the loop bodies
are textually identical in the source, only the target differs). -/
def binsWalk (target : ℚ) (cumulative : ℚ) :
    List ℚ → List SpeedBin → Option ℚ
  | c :: cs, b :: bs =>
    let cumulative2 := cumulative + c
    if target ≤ cumulative2 then
      let prevCumulative := cumulative2 - c
      let positionInBin := target - prevCumulative
      let fraction := if 0 < c then positionInBin / c else 0
      let binWidth : ℚ := match b.max with | none => 5 | some m => m - b.min
      some ((round (b.min + fraction * binWidth) : ℤ) : ℚ)
    else binsWalk target cumulative2 cs bs
  | _, _ => none

/-- Source `calculate85thFromBins` (stats.js lines 467-489). -/
def calculate85thFromBins (binCounts : List ℚ) (bins : List SpeedBin) : ℚ :=
  let total := binCounts.foldl (fun a b => a + b) 0
  if total = 0 then 0
  else
    match binsWalk (total * (85 / 100)) 0 binCounts bins with
    | some v => v
    | none =>
      match bins.getLast? with
      | some b => b.min + 2
      | none => 0

/-- Source `calculate50thFromBins` (stats.js lines 497-517). -/
def calculate50thFromBins (binCounts : List ℚ) (bins : List SpeedBin) : ℚ :=
  let total := binCounts.foldl (fun a b => a + b) 0
  if total = 0 then 0
  else
    match binsWalk (total * (50 / 100)) 0 binCounts bins with
    | some v => v
    | none =>
      match bins.getLast? with
      | some b => b.min + 2
      | none => 0

/-- Modelled from the spec: the generic `percentileFromBins(counts, bins, p)`
described in section 4.1, of which the two source functions are the `p = 0.85`
and `p = 0.50` instances. -/
def percentileFromBins (binCounts : List ℚ) (bins : List SpeedBin) (p : ℚ) : ℚ :=
  let total := binCounts.foldl (fun a b => a + b) 0
  if total = 0 then 0
  else
    match binsWalk (total * p) 0 binCounts bins with
    | some v => v
    | none =>
      match bins.getLast? with
      | some b => b.min + 2
      | none => 0

/-- Per-date percentiles extracted from a raw device file (the
`extractedPercentiles` collaborator input; spec name `ExternalPercentileMap`).
Keys are calendar-day indices. -/
structure DayPercentiles where
  p50 : ℚ
  p85 : ℚ
deriving Repr, DecidableEq

/-- The external percentile map: a JS object keyed by `YYYY-MM-DD`, modelled
as an association list keyed by day index (object keys are unique). -/
abbrev PercMap := List (ℕ × DayPercentiles)

/-- Property lookup `extractedPercentiles[dateKey]`. -/
def lookupPM (m : PercMap) (k : ℕ) : Option DayPercentiles :=
  (m.find? (fun e => e.1 = k)).map (fun e => e.2)

/-- Per-bucket accumulator built by the grouping loops of `aggregateDaily`
(stats.js lines 73-101) and `aggregateHourly` (lines 198-227).  The hourly
accumulator additionally has a `count` field that is incremented and never
read; it is omitted. -/
structure Acc where
  vehicles : ℕ
  violators : ℕ
  sum_speeds : ℚ
  peak_speed : ℚ
  speeds : List ℚ
  p85_values : List ℚ
deriving Repr, DecidableEq

/-- Freshly created bucket accumulator. -/
def initAcc : Acc := ⟨0, 0, 0, 0, [], []⟩

/-- One grouping-loop step on the accumulator of the row's bucket
(stats.js lines 86-101 and 212-227, identical in both aggregators). -/
def accRow (agg : Acc) (row : Row) : Acc :=
  let agg := { agg with
    vehicles := agg.vehicles + row.vehicles
    violators := agg.violators + row.violators }
  let agg :=
    match row.avg_speed with
    | some s =>
      if s ≠ 0 then
        { agg with
          sum_speeds := agg.sum_speeds + s * (weightOf row.vehicles : ℚ)
          speeds := agg.speeds ++ [s] }
      else agg
    | none => agg
  let agg :=
    match row.peak_speed with
    | some ps =>
      if ps ≠ 0 then { agg with peak_speed := max agg.peak_speed ps } else agg
    | none => agg
  match row.p85 with
  | some v => if 0 < v then { agg with p85_values := agg.p85_values ++ [v] } else agg
  | none => agg

/-- The JS `Map` from bucket key to accumulator, in insertion order. -/
abbrev Groups := List (ℕ × Acc)

/-- Membership test `grouped.has(key)`. -/
def hasKeyG (g : Groups) (k : ℕ) : Bool :=
  g.any (fun e => e.1 = k)

/-- Lookup `grouped.get(key)`. -/
def lookupG (g : Groups) (k : ℕ) : Option Acc :=
  (g.find? (fun e => e.1 = k)).map (fun e => e.2)

/-- In-place mutation of the entry at `key` (keys are unique in a JS `Map`,
so only the first matching entry is updated). -/
def updateG : Groups → ℕ → (Acc → Acc) → Groups
  | [], _, _ => []
  | e :: es, k, f =>
    if e.1 = k then (e.1, f e.2) :: es else e :: updateG es k f

/-- Grouping-loop body for one row: create the bucket if absent, then
accumulate the row into it. -/
def insertRowG (g : Groups) (k : ℕ) (row : Row) : Groups :=
  updateG (if hasKeyG g k then g else g ++ [(k, initAcc)]) k
    (fun a => accRow a row)

/-- State of the grouping loop: the map plus the tracked min/max bucket key.
In the daily aggregator the source compares full datetimes against
day-truncated ones, which is equivalent to taking min/max of the day keys;
the hourly aggregator compares hour-truncated datetimes directly. -/
structure BuildSt where
  g : Groups
  minKey : Option ℕ
  maxKey : Option ℕ
deriving Repr

/-- One iteration of the grouping loop (rows without a timestamp are
skipped). -/
def buildStep (key : Row → Option ℕ) (st : BuildSt) (row : Row) : BuildSt :=
  match key row with
  | none => st
  | some k =>
    { g := insertRowG st.g k row
      minKey := some (match st.minKey with | none => k | some m => min m k)
      maxKey := some (match st.maxKey with | none => k | some m => max m k) }

/-- The whole grouping loop over the input rows. -/
def buildGroups (key : Row → Option ℕ) (data : List Row) : BuildSt :=
  data.foldl (buildStep key) ⟨[], none, none⟩

/-- Gap-filling step: insert an empty bucket when the slot is missing
(stats.js lines 109-120 / 238-250). -/
def fillStep (g : Groups) (k : ℕ) : Groups :=
  if hasKeyG g k then g else g ++ [(k, initAcc)]

/-- Gap filling over every key in the closed interval `[mn, mx]`
(stats.js lines 105-123 / 231-253). -/
def fillGaps (g : Groups) (mn mx : ℕ) : Groups :=
  (List.range' mn (mx + 1 - mn)).foldl fillStep g

/-- Aggregated output bucket.  For daily buckets `date` is the day key; for
hourly buckets it holds the date-hour key (source field `datetime`). -/
structure Bucket where
  date : ℕ
  vehicles : ℕ
  violators : ℕ
  non_speeders : ℤ
  pct_speeders : Option ℚ
  avg_speed : Option ℚ
  peak_speed : Option ℚ
  p85 : Option ℚ
deriving Repr, DecidableEq

/-- First-choice percentile source: `extractedPercentiles[dateKey].p85 || null`
(stats.js lines 132-134 / 271-273). -/
def extP85 (ext : Option PercMap) (dateKey : ℕ) : Option ℚ :=
  match ext with
  | some m =>
    match lookupPM m dateKey with
    | some e => if e.p85 ≠ 0 then some e.p85 else none
    | none => none
  | none => none

/-- Percentile resolution for one bucket (stats.js lines 128-142 / 266-281):
external map first, then mean of directly supplied p85 values, then the 85th
percentile of the interval-average samples, else null. -/
def resolveP85 (ext : Option PercMap) (dateKey : ℕ) (agg : Acc) : Option ℚ :=
  match extP85 ext dateKey with
  | some v => some v
  | none =>
    if ¬agg.p85_values.isEmpty then some (average agg.p85_values)
    else if ¬agg.speeds.isEmpty then some (calculate85thPercentile agg.speeds)
    else none

/-- Derived output fields shared by both aggregators
(stats.js lines 144-154 / 283-293). -/
def mkBucket (k : ℕ) (agg : Acc) (p85Value : Option ℚ) : Bucket :=
  { date := k
    vehicles := agg.vehicles
    violators := agg.violators
    non_speeders := (agg.vehicles : ℤ) - (agg.violators : ℤ)
    pct_speeders :=
      if 0 < agg.vehicles then
        some ((agg.violators : ℚ) / (agg.vehicles : ℚ) * 100)
      else none
    avg_speed :=
      if 0 < agg.vehicles then some (agg.sum_speeds / (agg.vehicles : ℚ))
      else none
    peak_speed := if agg.peak_speed ≠ 0 then some agg.peak_speed else none
    p85 := p85Value }

/-- Daily bucket derivation: the external map is keyed by the bucket's own
date. -/
def deriveDaily (ext : Option PercMap) (k : ℕ) (agg : Acc) : Bucket :=
  mkBucket k agg (resolveP85 ext k agg)

/-- Hourly bucket derivation: the external map is keyed by the date portion
of the bucket's date-hour key (stats.js lines 263-264). -/
def deriveHourly (ext : Option PercMap) (k : ℕ) (agg : Acc) : Bucket :=
  mkBucket k agg (resolveP85 ext (k / 24) agg)

/-- Day key of a row (`getDateKey`), when it has a timestamp. -/
def dayKeyF (row : Row) : Option ℕ := row.datetime.map (fun t => t / 24)

/-- Date-hour key of a row, when it has a timestamp. -/
def hourKeyF (row : Row) : Option ℕ := row.datetime

/-- Source `aggregateDaily` (stats.js lines 55-161): group by day, fill gaps
between the min and max observed day, derive output fields, sort by date. -/
def aggregateDaily (data : List Row) (ext : Option PercMap) : List Bucket :=
  let st := buildGroups dayKeyF data
  let g :=
    match st.minKey, st.maxKey with
    | some mn, some mx => fillGaps st.g mn mx
    | _, _ => st.g
  List.insertionSort (fun a b => a.date ≤ b.date)
    (g.map (fun e => deriveDaily ext e.1 e.2))

/-- Source `aggregateHourly` (stats.js lines 169-297): group by date-hour,
fill gaps, sort the keys, then derive output fields per key. -/
def aggregateHourly (data : List Row) (ext : Option PercMap) : List Bucket :=
  let st := buildGroups hourKeyF data
  let g :=
    match st.minKey, st.maxKey with
    | some mn, some mx => fillGaps st.g mn mx
    | _, _ => st.g
  let sortedKeys := List.insertionSort (fun a b => a ≤ b) (g.map (fun e => e.1))
  sortedKeys.map (fun k =>
    match lookupG g k with
    | some agg => deriveHourly ext k agg
    | none => mkBucket k initAcc none)

/-- One per-vehicle speed observation (element of `perVehicleData`). -/
structure VehicleObs where
  speed : ℚ
deriving Repr, DecidableEq

/-- Scalar statistics object produced by `calculateStats`. -/
structure Stats where
  totalVehicles : ℕ
  totalViolators : ℕ
  pctSpeeders : ℚ
  avgSpeed : ℚ
  peakSpeed : ℚ
  p85 : Option ℚ
deriving Repr, DecidableEq

/-- Accumulator of the summing loop of `calculateStats`
(stats.js lines 318-341). -/
structure SAcc where
  totalVehicles : ℕ
  totalViolators : ℕ
  sumSpeeds : ℚ
  speedCount : ℕ
  peakSpeed : ℚ
  p85Values : List ℚ
  avgSpeeds : List ℚ

/-- One row of the summing loop of `calculateStats`. -/
def statsRow (acc : SAcc) (row : Row) : SAcc :=
  let acc := { acc with
    totalVehicles := acc.totalVehicles + row.vehicles
    totalViolators := acc.totalViolators + row.violators }
  let acc :=
    match row.avg_speed with
    | some s =>
      if s ≠ 0 then
        { acc with
          sumSpeeds := acc.sumSpeeds + s * (weightOf row.vehicles : ℚ)
          speedCount := acc.speedCount + weightOf row.vehicles
          avgSpeeds := acc.avgSpeeds ++ [s] }
      else acc
    | none => acc
  let acc :=
    match row.peak_speed with
    | some ps =>
      if ps ≠ 0 then { acc with peakSpeed := max acc.peakSpeed ps } else acc
    | none => acc
  match row.p85 with
  | some v => if 0 < v then { acc with p85Values := acc.p85Values ++ [v] } else acc
  | none => acc

/-- Source `calculateStats` (stats.js lines 306-378). -/
def calculateStats (data : List Row) (perVehicleData : Option (List VehicleObs))
    (extractedPercentiles : Option PercMap) : Stats :=
  if data.isEmpty then ⟨0, 0, 0, 0, 0, none⟩
  else
    let acc := data.foldl statsRow ⟨0, 0, 0, 0, 0, [], []⟩
    let p85a : Option ℚ :=
      match extractedPercentiles with
      | some m =>
        if ¬m.isEmpty then
          let extractedP85Values :=
            (m.map (fun e => e.2.p85)).filter (fun v => 0 < v)
          if ¬extractedP85Values.isEmpty then some (average extractedP85Values)
          else none
        else none
      | none => none
    let p85b : Option ℚ :=
      match p85a with
      | some v => some v
      | none =>
        match perVehicleData with
        | some pvd =>
          if ¬pvd.isEmpty then
            some (calculate85thPercentile
              ((pvd.map (fun v => v.speed)).filter (fun s => 0 < s)))
          else none
        | none => none
    let p85c : Option ℚ :=
      match p85b with
      | some v => some v
      | none =>
        if ¬acc.p85Values.isEmpty then some (average acc.p85Values) else none
    let p85d : Option ℚ :=
      match p85c with
      | some v => some v
      | none =>
        if ¬acc.avgSpeeds.isEmpty then
          some (calculate85thPercentile acc.avgSpeeds)
        else none
    { totalVehicles := acc.totalVehicles
      totalViolators := acc.totalViolators
      pctSpeeders :=
        if 0 < acc.totalVehicles then
          (acc.totalViolators : ℚ) / (acc.totalVehicles : ℚ) * 100
        else 0
      avgSpeed :=
        if 0 < acc.speedCount then acc.sumSpeeds / (acc.speedCount : ℚ) else 0
      peakSpeed := acc.peakSpeed
      p85 := p85d }

/-! ### Generic list helpers -/

lemma sum_set_getD (counts : List ℕ) (i : ℕ) (h : i < counts.length) :
    (counts.set i (counts.getD i 0 + 1)).sum = counts.sum + 1 := by
  induction counts generalizing i with
  | nil => simp at h
  | cons c cs ih =>
    cases i with
    | zero => simp [List.getD_cons_zero]; omega
    | succ n =>
      simp only [List.length_cons, Nat.succ_lt_succ_iff] at h
      simp only [List.getD_cons_succ, List.set_cons_succ, List.sum_cons, ih n h]
      omega

/-! ### Speed-bin classification: each speed is counted at most once (C10) -/

/-- Predicate for the primary bin test `speed >= bin.min && speed < bin.max`. -/
def binMatches (speed : ℚ) (b : SpeedBin) : Prop :=
  b.min ≤ speed ∧ ltMaxP speed b.max

instance instDecBinMatches (speed : ℚ) (b : SpeedBin) : Decidable (binMatches speed b) :=
  inferInstanceAs (Decidable (_ ∧ _))

theorem binAssignLoop_length (speed : ℚ) (bins : List SpeedBin)
    (counts : List ℕ) : (binAssignLoop speed bins counts).length = counts.length := by
  induction bins generalizing counts with
  | nil => rfl
  | cons b bs ih =>
    cases counts with
    | nil => rfl
    | cons c cs =>
      rw [binAssignLoop]
      split
      · simp
      · split <;> simp [ih]

theorem binAssignLoop_sum (speed : ℚ) (bins : List SpeedBin) (counts : List ℕ)
    (hlast : ∀ b ∈ bins.getLast?, b.max = none)
    (hlen : counts.length = bins.length) :
    (binAssignLoop speed bins counts).sum =
      counts.sum + (if ∃ b ∈ bins, binMatches speed b then 1 else 0) := by
  induction bins generalizing counts with
  | nil => simp [binAssignLoop]
  | cons b bs ih =>
    cases counts with
    | nil => simp at hlen
    | cons c cs =>
      simp only [List.length_cons, Nat.succ.injEq] at hlen
      rw [binAssignLoop]
      by_cases hm : b.min ≤ speed ∧ ltMaxP speed b.max
      · rw [if_pos hm]
        rw [if_pos (show ∃ x ∈ b :: bs, binMatches speed x from
          ⟨b, List.mem_cons_self _ _, hm⟩)]
        simp only [List.sum_cons]
        omega
      · rw [if_neg hm]
        have hsec : ¬(bs = [] ∧ b.min ≤ speed) := by
          rintro ⟨rfl, hmin⟩
          refine hm ⟨hmin, ?_⟩
          have hb : b.max = none := hlast b (by simp [List.getLast?])
          rw [hb]; trivial
        rw [if_neg hsec]
        have hlast2 : ∀ x ∈ bs.getLast?, x.max = none := by
          intro x hx
          apply hlast
          cases bs with
          | nil => simp at hx
          | cons b2 t => rw [List.getLast?_cons_cons]; exact hx
        have hiff : (∃ x ∈ b :: bs, binMatches speed x) ↔
            (∃ x ∈ bs, binMatches speed x) := by
          constructor
          · rintro ⟨x, hx, hmx⟩
            rcases List.mem_cons.mp hx with rfl | hx
            · exact absurd hmx hm
            · exact ⟨x, hx, hmx⟩
          · rintro ⟨x, hx, hmx⟩; exact ⟨x, List.mem_cons_of_mem _ hx, hmx⟩
        rw [List.sum_cons, ih cs hlast2 hlen]
        rw [if_congr hiff rfl rfl]
        simp only [List.sum_cons]
        omega

theorem calculateSpeedBins_sum (speeds : List ℚ) (bins : List SpeedBin)
    (hlast : ∀ b ∈ bins.getLast?, b.max = none) :
    (calculateSpeedBins speeds bins).sum =
      (speeds.filter (fun s => decide (∃ b ∈ bins, binMatches s b))).length := by
  suffices h : ∀ counts : List ℕ, counts.length = bins.length →
      (speeds.foldl (fun c s => binAssignLoop s bins c) counts).sum =
        counts.sum +
          (speeds.filter (fun s => decide (∃ b ∈ bins, binMatches s b))).length by
    simpa [calculateSpeedBins] using h (List.replicate bins.length 0) (by simp)
  induction speeds with
  | nil => intro counts _; simp
  | cons s rest ih =>
    intro counts hlen
    have hstep := binAssignLoop_sum s bins counts hlast hlen
    have hlen2 : (binAssignLoop s bins counts).length = bins.length := by
      rw [binAssignLoop_length]; exact hlen
    simp only [List.foldl_cons]
    rw [ih _ hlen2, hstep]
    by_cases hm : ∃ b ∈ bins, binMatches s b
    · simp [hm, List.filter_cons]; omega
    · simp [hm, List.filter_cons]

lemma speed_bins_8_last : ∀ b ∈ SPEED_BINS_8.getLast?, b.max = none := by
  intro b hb
  simp only [SPEED_BINS_8, List.getLast?_cons_cons, List.getLast?_singleton,
    Option.mem_def, Option.some.injEq] at hb
  rw [← hb]

lemma speed_bins_12_last : ∀ b ∈ SPEED_BINS_12.getLast?, b.max = none := by
  intro b hb
  simp only [SPEED_BINS_12, List.getLast?_cons_cons, List.getLast?_singleton,
    Option.mem_def, Option.some.injEq] at hb
  rw [← hb]

/-- C10: on either fixed bin table, `calculateSpeedBins` counts every speed
into exactly one bin when some bin matches it and into no bin otherwise: the
total of the returned counts is the number of matching input speeds, and in
particular never exceeds the number of input speeds.  The secondary last-bin
check inside the loop never produces a double count. -/
theorem calculateSpeedBins_counts_at_most_once :
    ∀ speeds : List ℚ,
      ((calculateSpeedBins speeds SPEED_BINS_8).sum =
          (speeds.filter (fun s => decide (∃ b ∈ SPEED_BINS_8, binMatches s b))).length
        ∧ (calculateSpeedBins speeds SPEED_BINS_8).sum ≤ speeds.length)
      ∧ ((calculateSpeedBins speeds SPEED_BINS_12).sum =
          (speeds.filter (fun s => decide (∃ b ∈ SPEED_BINS_12, binMatches s b))).length
        ∧ (calculateSpeedBins speeds SPEED_BINS_12).sum ≤ speeds.length) := by
  intro speeds
  have h8 := calculateSpeedBins_sum speeds SPEED_BINS_8 speed_bins_8_last
  have h12 := calculateSpeedBins_sum speeds SPEED_BINS_12 speed_bins_12_last
  refine ⟨⟨h8, ?_⟩, ⟨h12, ?_⟩⟩
  · rw [h8]; exact List.length_filter_le _ _
  · rw [h12]; exact List.length_filter_le _ _

/-- C4 (amended): classifying 70 against the 8-bin table assigns it to the
final "70+" bin, classifying 61 against the 12-bin table assigns it to the
final "61+" bin, and classifying 9.9 against the 8-bin table assigns it to
the first "1-10" bin (9.9 satisfies `1 ≤ 9.9 < 10`, so it is not dropped). -/
theorem classify_fixed_table_examples :
    calculateSpeedBins [(70 : ℚ)] SPEED_BINS_8 = [0, 0, 0, 0, 0, 0, 0, 1]
    ∧ (SPEED_BINS_8.getD 7 ⟨0, none, ""⟩).label = "70+"
    ∧ calculateSpeedBins [(99 / 10 : ℚ)] SPEED_BINS_8 = [1, 0, 0, 0, 0, 0, 0, 0]
    ∧ (SPEED_BINS_8.getD 0 ⟨0, none, ""⟩).label = "1-10"
    ∧ calculateSpeedBins [(61 : ℚ)] SPEED_BINS_12 = [0, 0, 0, 0, 0, 0, 0, 0, 0, 0, 0, 1]
    ∧ (SPEED_BINS_12.getD 11 ⟨0, none, ""⟩).label = "61+" := by
  refine ⟨?_, rfl, ?_, rfl, ?_, rfl⟩
  · norm_num [calculateSpeedBins, binAssignLoop, SPEED_BINS_8, ltMaxP,
      List.cons_ne_nil]
  · norm_num [calculateSpeedBins, binAssignLoop, SPEED_BINS_8, ltMaxP,
      List.cons_ne_nil]
    decide
  · norm_num [calculateSpeedBins, binAssignLoop, SPEED_BINS_12, ltMaxP,
      List.cons_ne_nil]

/-- C4 counterexample: contrary to the claim, classifying speed 9.9 against
the 8-bin table does change the count vector — 9.9 is counted into the
"1-10" bin. -/
theorem classify_9_9_counterexample :
    calculateSpeedBins [(99 / 10 : ℚ)] SPEED_BINS_8 ≠ List.replicate 8 0 := by
  have h : calculateSpeedBins [(99 / 10 : ℚ)] SPEED_BINS_8 = [1, 0, 0, 0, 0, 0, 0, 0] := by
    norm_num [calculateSpeedBins, binAssignLoop, SPEED_BINS_8, ltMaxP,
      List.cons_ne_nil]
    decide
  rw [h]
  decide

/-- C6: `calculate85thFromBins` and `calculate50thFromBins` are the `p = 0.85`
and `p = 0.50` instances of the generic interpolation algorithm
`percentileFromBins` described by the spec; a zero total yields 0; and on bins
`[{0,10},{10,20}]` with counts `[10,10]` the 50th percentile is exactly 10. -/
theorem percentileFromBins_algorithm :
    (∀ (binCounts : List ℚ) (bins : List SpeedBin),
        calculate85thFromBins binCounts bins = percentileFromBins binCounts bins (85 / 100))
    ∧ (∀ (binCounts : List ℚ) (bins : List SpeedBin),
        calculate50thFromBins binCounts bins = percentileFromBins binCounts bins (50 / 100))
    ∧ (∀ (binCounts : List ℚ) (bins : List SpeedBin) (p : ℚ),
        binCounts.foldl (fun a b => a + b) 0 = 0 → percentileFromBins binCounts bins p = 0)
    ∧ calculate50thFromBins [10, 10] [⟨0, some 10, "0-10"⟩, ⟨10, some 20, "10-20"⟩] = 10 := by
  refine ⟨fun _ _ => rfl, fun _ _ => rfl, ?_, ?_⟩
  · intro binCounts bins p h
    simp [percentileFromBins, h]
  · norm_num [calculate50thFromBins, binsWalk, round_eq]

/-- C6 witness: the zero-total clause of `percentileFromBins_algorithm`
applied to the empty count list. -/
theorem percentileFromBins_algorithm_witness :
    percentileFromBins [] [] (1 / 2) = 0 :=
  percentileFromBins_algorithm.2.2.1 [] [] (1 / 2) rfl

/-! ### Association-list (JS Map) lemmas -/

/-- Key list of a group map, in insertion order. -/
def keysG (g : Groups) : List ℕ := g.map (fun e => e.1)

lemma lookupG_nil (k : ℕ) : lookupG [] k = none := rfl

lemma lookupG_cons (e : ℕ × Acc) (g : Groups) (k : ℕ) :
    lookupG (e :: g) k = if e.1 = k then some e.2 else lookupG g k := by
  by_cases h : e.1 = k <;> simp [lookupG, List.find?_cons, h]

lemma hasKeyG_eq_isSome (g : Groups) (k : ℕ) :
    hasKeyG g k = (lookupG g k).isSome := by
  induction g with
  | nil => rfl
  | cons e g ih =>
    rw [lookupG_cons]
    by_cases h : e.1 = k
    · simp [hasKeyG, h]
    · have ih2 : g.any (fun e => e.1 = k) = (lookupG g k).isSome := ih
      simp [hasKeyG, h, ih2]

lemma lookupG_append (g g2 : Groups) (k : ℕ) :
    lookupG (g ++ g2) k =
      match lookupG g k with
      | some a => some a
      | none => lookupG g2 k := by
  induction g with
  | nil => simp [lookupG_nil]
  | cons e g ih =>
    rw [List.cons_append, lookupG_cons, lookupG_cons]
    by_cases h : e.1 = k <;> simp [h, ih]

lemma lookupG_updateG_self (g : Groups) (k : ℕ) (f : Acc → Acc) :
    lookupG (updateG g k f) k = (lookupG g k).map f := by
  induction g with
  | nil => rfl
  | cons e g ih =>
    rw [updateG]
    by_cases h : e.1 = k
    · rw [if_pos h, lookupG_cons, lookupG_cons]
      simp [h]
    · rw [if_neg h, lookupG_cons, lookupG_cons, if_neg h, if_neg h, ih]

lemma lookupG_updateG_ne (g : Groups) (k k2 : ℕ) (f : Acc → Acc) (h : k2 ≠ k) :
    lookupG (updateG g k f) k2 = lookupG g k2 := by
  induction g with
  | nil => rfl
  | cons e g ih =>
    rw [updateG]
    by_cases he : e.1 = k
    · rw [if_pos he, lookupG_cons, lookupG_cons]
      have : ¬e.1 = k2 := by rw [he]; exact fun hh => h hh.symm
      simp [this]
    · rw [if_neg he, lookupG_cons, lookupG_cons, ih]

lemma keysG_updateG (g : Groups) (k : ℕ) (f : Acc → Acc) :
    keysG (updateG g k f) = keysG g := by
  induction g with
  | nil => rfl
  | cons e g ih =>
    rw [updateG]
    by_cases h : e.1 = k
    · rw [if_pos h]; simp [keysG]
    · rw [if_neg h]; simp [keysG] at ih ⊢; exact ih

lemma mem_keysG (g : Groups) (k : ℕ) :
    k ∈ keysG g ↔ (lookupG g k).isSome := by
  induction g with
  | nil => simp [keysG, lookupG_nil]
  | cons e g ih =>
    rw [lookupG_cons]
    by_cases h : e.1 = k
    · simp [keysG, h]
    · have : ¬k = e.1 := fun hh => h hh.symm
      simp [keysG, h, this] at ih ⊢
      simpa [keysG] using ih

lemma lookupG_insertRowG_self (g : Groups) (k : ℕ) (row : Row) :
    lookupG (insertRowG g k row) k =
      some (accRow ((lookupG g k).getD initAcc) row) := by
  rw [insertRowG]
  by_cases h : hasKeyG g k
  · rw [if_pos h, lookupG_updateG_self]
    rw [hasKeyG_eq_isSome] at h
    obtain ⟨a, ha⟩ := Option.isSome_iff_exists.mp h
    simp [ha]
  · rw [if_neg h, lookupG_updateG_self, lookupG_append]
    rw [hasKeyG_eq_isSome] at h
    have hn : lookupG g k = none := by
      cases hl : lookupG g k with
      | none => rfl
      | some a => rw [hl] at h; simp at h
    rw [hn]
    simp [lookupG_cons]

lemma lookupG_insertRowG_ne (g : Groups) (k k2 : ℕ) (row : Row) (h : k2 ≠ k) :
    lookupG (insertRowG g k row) k2 = lookupG g k2 := by
  rw [insertRowG]
  by_cases hk : hasKeyG g k
  · rw [if_pos hk, lookupG_updateG_ne _ _ _ _ h]
  · rw [if_neg hk, lookupG_updateG_ne _ _ _ _ h, lookupG_append]
    cases hl : lookupG g k2 with
    | some a => simp
    | none =>
      have : ¬(k = k2) := fun hh => h hh.symm
      simp [lookupG_cons, this, lookupG_nil]

lemma keysG_insertRowG (g : Groups) (k : ℕ) (row : Row) :
    keysG (insertRowG g k row) = if hasKeyG g k then keysG g else keysG g ++ [k] := by
  rw [insertRowG]
  by_cases h : hasKeyG g k
  · rw [if_pos h, if_pos h, keysG_updateG]
  · rw [if_neg h, if_neg h, keysG_updateG]
    simp [keysG]

lemma nodup_keysG_insertRowG (g : Groups) (k : ℕ) (row : Row)
    (h : (keysG g).Nodup) : (keysG (insertRowG g k row)).Nodup := by
  rw [keysG_insertRowG]
  by_cases hk : hasKeyG g k
  · rwa [if_pos hk]
  · rw [if_neg hk]
    have hnm : k ∉ keysG g := by
      rw [mem_keysG, ← hasKeyG_eq_isSome]
      exact hk
    simp [List.nodup_append, h, hnm]

/-! ### Characterizing the grouping loop -/

/-- Rows of the input that fall into the bucket with key `k`. -/
def rowsFor (key : Row → Option ℕ) (data : List Row) (k : ℕ) : List Row :=
  data.filter (fun r => key r = some k)

/-- Accumulator obtained by folding a list of rows into a fresh bucket. -/
def accListRows (rows : List Row) : Acc := rows.foldl accRow initAcc

lemma rowsFor_cons (key : Row → Option ℕ) (r : Row) (data : List Row) (k : ℕ) :
    rowsFor key (r :: data) k =
      if key r = some k then r :: rowsFor key data k else rowsFor key data k := by
  by_cases h : key r = some k <;> simp [rowsFor, List.filter_cons, h]

lemma buildGroups_lookup (key : Row → Option ℕ) (data : List Row) :
    ∀ (st : BuildSt) (k : ℕ),
      lookupG (data.foldl (buildStep key) st).g k =
        match lookupG st.g k with
        | some a => some ((rowsFor key data k).foldl accRow a)
        | none =>
          if (rowsFor key data k).isEmpty then none
          else some ((rowsFor key data k).foldl accRow initAcc) := by
  induction data with
  | nil =>
    intro st k
    cases h : lookupG st.g k <;> simp [rowsFor, h]
  | cons r data ih =>
    intro st k
    rw [List.foldl_cons]
    cases hkr : key r with
    | none =>
      have hstep : buildStep key st r = st := by rw [buildStep, hkr]
      rw [hstep, ih st k, rowsFor_cons]
      have : ¬(key r = some k) := by rw [hkr]; simp
      rw [if_neg this]
    | some k0 =>
      have hstep : (buildStep key st r).g = insertRowG st.g k0 r := by
        rw [buildStep, hkr]
      rw [ih (buildStep key st r) k, hstep, rowsFor_cons]
      by_cases hk : k = k0
      · subst hk
        rw [lookupG_insertRowG_self, if_pos hkr]
        cases h : lookupG st.g k with
        | some a => simp [h]
        | none => simp [h]
      · have hne : ¬(key r = some k) := by
          rw [hkr]
          simp
          exact fun hh => hk hh.symm
        rw [lookupG_insertRowG_ne _ _ _ _ hk, if_neg hne]

lemma buildGroups_minKey (key : Row → Option ℕ) (data : List Row) :
    ∀ st : BuildSt,
      (data.foldl (buildStep key) st).minKey =
        match st.minKey with
        | none => (data.filterMap key).min?
        | some m => some ((data.filterMap key).foldl min m) := by
  induction data with
  | nil => intro st; cases h : st.minKey <;> simp [h]
  | cons r data ih =>
    intro st
    rw [List.foldl_cons]
    cases hkr : key r with
    | none =>
      have hstep : buildStep key st r = st := by rw [buildStep, hkr]
      have hfm : (r :: data).filterMap key = data.filterMap key := by
        simp [List.filterMap_cons, hkr]
      rw [hstep, ih st, hfm]
    | some k0 =>
      have hstep : (buildStep key st r).minKey =
          some (match st.minKey with | none => k0 | some m => min m k0) := by
        rw [buildStep, hkr]
      have hfm : (r :: data).filterMap key = k0 :: data.filterMap key := by
        simp [List.filterMap_cons, hkr]
      rw [ih (buildStep key st r), hstep, hfm]
      cases h : st.minKey with
      | none => exact List.min?_cons'.symm
      | some m => simp [List.foldl_cons]

lemma buildGroups_maxKey (key : Row → Option ℕ) (data : List Row) :
    ∀ st : BuildSt,
      (data.foldl (buildStep key) st).maxKey =
        match st.maxKey with
        | none => (data.filterMap key).max?
        | some m => some ((data.filterMap key).foldl max m) := by
  induction data with
  | nil => intro st; cases h : st.maxKey <;> simp [h]
  | cons r data ih =>
    intro st
    rw [List.foldl_cons]
    cases hkr : key r with
    | none =>
      have hstep : buildStep key st r = st := by rw [buildStep, hkr]
      have hfm : (r :: data).filterMap key = data.filterMap key := by
        simp [List.filterMap_cons, hkr]
      rw [hstep, ih st, hfm]
    | some k0 =>
      have hstep : (buildStep key st r).maxKey =
          some (match st.maxKey with | none => k0 | some m => max m k0) := by
        rw [buildStep, hkr]
      have hfm : (r :: data).filterMap key = k0 :: data.filterMap key := by
        simp [List.filterMap_cons, hkr]
      rw [ih (buildStep key st r), hstep, hfm]
      cases h : st.maxKey with
      | none => exact List.max?_cons'.symm
      | some m => simp [List.foldl_cons]

lemma buildGroups_minKey_eq (key : Row → Option ℕ) (data : List Row) :
    (buildGroups key data).minKey = (data.filterMap key).min? := by
  rw [buildGroups, buildGroups_minKey]

lemma buildGroups_maxKey_eq (key : Row → Option ℕ) (data : List Row) :
    (buildGroups key data).maxKey = (data.filterMap key).max? := by
  rw [buildGroups, buildGroups_maxKey]

lemma lookupG_buildGroups (key : Row → Option ℕ) (data : List Row) (k : ℕ) :
    lookupG (buildGroups key data).g k =
      if (rowsFor key data k).isEmpty then none
      else some (accListRows (rowsFor key data k)) := by
  rw [buildGroups, buildGroups_lookup key data ⟨[], none, none⟩ k]
  rfl

lemma rowsFor_isEmpty_iff (key : Row → Option ℕ) (data : List Row) (k : ℕ) :
    (rowsFor key data k).isEmpty ↔ ¬k ∈ data.filterMap key := by
  rw [List.isEmpty_iff, List.mem_filterMap, rowsFor]
  constructor
  · intro h ⟨r, hr, hkr⟩
    have := List.filter_eq_nil_iff.mp h r hr
    simp [hkr] at this
  · intro h
    rw [List.filter_eq_nil_iff]
    intro r hr
    simp only [decide_eq_true_eq]
    exact fun hkr => h ⟨r, hr, hkr⟩

lemma mem_keysG_buildGroups (key : Row → Option ℕ) (data : List Row) (k : ℕ) :
    k ∈ keysG (buildGroups key data).g ↔ k ∈ data.filterMap key := by
  have hiff : (lookupG (buildGroups key data).g k).isSome
      ↔ ¬(rowsFor key data k).isEmpty := by
    rw [lookupG_buildGroups]
    by_cases h : (rowsFor key data k).isEmpty <;> simp [h]
  rw [mem_keysG, hiff, rowsFor_isEmpty_iff]
  exact not_not

lemma nodup_keysG_buildGroups (key : Row → Option ℕ) (data : List Row) :
    (keysG (buildGroups key data).g).Nodup := by
  rw [buildGroups]
  suffices h : ∀ st : BuildSt, (keysG st.g).Nodup →
      (keysG (data.foldl (buildStep key) st).g).Nodup by
    exact h ⟨[], none, none⟩ (by simp [keysG])
  induction data with
  | nil => intro st hst; exact hst
  | cons r data ih =>
    intro st hst
    rw [List.foldl_cons]
    apply ih
    cases hkr : key r with
    | none => rw [buildStep, hkr]; exact hst
    | some k0 =>
      have hstep : (buildStep key st r).g = insertRowG st.g k0 r := by
        rw [buildStep, hkr]
      rw [hstep]
      exact nodup_keysG_insertRowG _ _ _ hst

/-! ### Characterizing gap filling -/

lemma fill_lookup (ks : List ℕ) :
    ∀ (g : Groups) (k : ℕ),
      lookupG (ks.foldl fillStep g) k =
        match lookupG g k with
        | some a => some a
        | none => if k ∈ ks then some initAcc else none := by
  induction ks with
  | nil => intro g k; cases h : lookupG g k <;> simp [h]
  | cons k0 ks ih =>
    intro g k
    rw [List.foldl_cons, ih (fillStep g k0) k]
    by_cases hk : k = k0
    · subst hk
      cases h : lookupG g k with
      | some a =>
        have hfs : lookupG (fillStep g k) k = some a := by
          rw [fillStep]
          by_cases hh : hasKeyG g k
          · rw [if_pos hh]; exact h
          · rw [hasKeyG_eq_isSome, h] at hh; simp at hh
        rw [hfs]
      | none =>
        have hfs : lookupG (fillStep g k) k = some initAcc := by
          rw [fillStep]
          have hh : ¬hasKeyG g k = true := by rw [hasKeyG_eq_isSome, h]; simp
          rw [if_neg hh, lookupG_append, h]
          simp [lookupG_cons]
        rw [hfs]
        simp
    · have hfs : lookupG (fillStep g k0) k = lookupG g k := by
        rw [fillStep]
        by_cases hh : hasKeyG g k0
        · rw [if_pos hh]
        · rw [if_neg hh, lookupG_append]
          cases h2 : lookupG g k with
          | some a => simp
          | none =>
            have hne : ¬(k0 = k) := fun hh2 => hk hh2.symm
            simp [lookupG_cons, hne, lookupG_nil]
      rw [hfs]
      cases h : lookupG g k with
      | some a => rfl
      | none =>
        simp only [List.mem_cons]
        exact if_congr (by simp [hk]) rfl rfl

lemma mem_keysG_fill (ks : List ℕ) (g : Groups) (k : ℕ) :
    k ∈ keysG (ks.foldl fillStep g) ↔ k ∈ keysG g ∨ k ∈ ks := by
  rw [mem_keysG, mem_keysG, fill_lookup]
  cases h : lookupG g k with
  | some a => simp
  | none =>
    by_cases hk : k ∈ ks <;> simp [hk]

lemma nodup_keysG_fill (ks : List ℕ) :
    ∀ g : Groups, (keysG g).Nodup → (keysG (ks.foldl fillStep g)).Nodup := by
  induction ks with
  | nil => intro g h; exact h
  | cons k0 ks ih =>
    intro g h
    rw [List.foldl_cons]
    apply ih
    rw [fillStep]
    by_cases hh : hasKeyG g k0
    · rw [if_pos hh]; exact h
    · rw [if_neg hh]
      have hnm : k0 ∉ keysG g := by
        rw [mem_keysG, ← hasKeyG_eq_isSome]
        exact hh
      have hkeys : keysG (g ++ [(k0, initAcc)]) = keysG g ++ [k0] := by
        simp [keysG]
      rw [hkeys]
      simp [List.nodup_append, h, hnm]

/-! ### The full aggregation pipeline -/

lemma keysG_cons (e : ℕ × Acc) (g : Groups) : keysG (e :: g) = e.1 :: keysG g := rfl

lemma map_eq_keys_map (g : Groups) (F : ℕ → Acc → Bucket)
    (hnd : (keysG g).Nodup) :
    g.map (fun e => F e.1 e.2) =
      (keysG g).map (fun k => F k ((lookupG g k).getD initAcc)) := by
  induction g with
  | nil => rfl
  | cons e g ih =>
    rw [keysG_cons] at hnd ⊢
    rw [List.nodup_cons] at hnd
    rw [List.map_cons, List.map_cons]
    have hhead : lookupG (e :: g) e.1 = some e.2 := by
      rw [lookupG_cons, if_pos rfl]
    rw [hhead]
    have htail : (keysG g).map (fun k => F k ((lookupG (e :: g) k).getD initAcc)) =
        (keysG g).map (fun k => F k ((lookupG g k).getD initAcc)) := by
      apply List.map_congr_left
      intro k hk
      have hne : ¬(e.1 = k) := fun hh => hnd.1 (hh ▸ hk)
      rw [lookupG_cons, if_neg hne]
    rw [htail, ih hnd.2]
    rfl

instance instIsTotalBucketDate : IsTotal Bucket (fun a b => a.date ≤ b.date) :=
  ⟨fun a b => Nat.le_total a.date b.date⟩

instance instIsTransBucketDate : IsTrans Bucket (fun a b => a.date ≤ b.date) :=
  ⟨fun _ _ _ hab hbc => Nat.le_trans hab hbc⟩

/-- Two date-sorted bucket lists that are permutations of each other are equal
when the second has pairwise-distinct dates. -/
lemma eq_of_perm_sorted_buckets :
    ∀ {r l : List Bucket}, List.Perm l r →
      l.Sorted (fun a b => a.date ≤ b.date) →
      r.Sorted (fun a b => a.date ≤ b.date) →
      (r.map (fun b => b.date)).Nodup → l = r := by
  intro r
  induction r with
  | nil => intro l hp _ _ _; simpa using hp.eq_nil
  | cons b r ih =>
    intro l hp hl hr hnd
    cases l with
    | nil => exact absurd hp.symm.eq_nil (by simp)
    | cons a l =>
      rcases List.mem_cons.mp (hp.mem_iff.mp (List.mem_cons_self a l)) with hab | har
      · subst hab
        have hp2 : List.Perm l r := hp.cons_inv
        rw [List.sorted_cons] at hl hr
        rw [List.map_cons, List.nodup_cons] at hnd
        rw [ih hp2 hl.2 hr.2 hnd.2]
      · have hbl : b ∈ a :: l := hp.mem_iff.mpr (List.mem_cons_self b r)
        rcases List.mem_cons.mp hbl with hba | hbl2
        · rw [← hba] at hp hl ⊢
          have hp2 : List.Perm l r := hp.cons_inv
          rw [List.sorted_cons] at hl hr
          rw [List.map_cons, List.nodup_cons] at hnd
          rw [ih hp2 hl.2 hr.2 hnd.2]
        · exfalso
          rw [List.sorted_cons] at hl hr
          have h1 : a.date ≤ b.date := hl.1 b hbl2
          have h2 : b.date ≤ a.date := hr.1 a har
          have heq : a.date = b.date := Nat.le_antisymm h1 h2
          rw [List.map_cons, List.nodup_cons] at hnd
          exact hnd.1 (heq ▸ List.mem_map_of_mem (fun x => x.date) har)

lemma date_deriveDaily (ext : Option PercMap) (k : ℕ) (a : Acc) :
    (deriveDaily ext k a).date = k := rfl

lemma fillGaps_eq_foldl (g : Groups) (mn mx : ℕ) :
    fillGaps g mn mx = (List.range' mn (mx + 1 - mn)).foldl fillStep g := rfl

/-- Complete characterization of `aggregateDaily` on inputs with at least one
timestamped record: one bucket per day key from the minimum to the maximum
observed, in order, each derived from exactly the rows of that day. -/
theorem aggregateDaily_eq (data : List Row) (ext : Option PercMap) (mn mx : ℕ)
    (hmn : (data.filterMap dayKeyF).min? = some mn)
    (hmx : (data.filterMap dayKeyF).max? = some mx) :
    aggregateDaily data ext =
      (List.range' mn (mx + 1 - mn)).map
        (fun k => deriveDaily ext k (accListRows (rowsFor dayKeyF data k))) := by
  have hstmin : (buildGroups dayKeyF data).minKey = some mn := by
    rw [buildGroups_minKey_eq, hmn]
  have hstmax : (buildGroups dayKeyF data).maxKey = some mx := by
    rw [buildGroups_maxKey_eq, hmx]
  have hGdef : (match (buildGroups dayKeyF data).minKey,
      (buildGroups dayKeyF data).maxKey with
    | some mn, some mx => fillGaps (buildGroups dayKeyF data).g mn mx
    | _, _ => (buildGroups dayKeyF data).g) =
      (List.range' mn (mx + 1 - mn)).foldl fillStep (buildGroups dayKeyF data).g := by
    rw [hstmin, hstmax]
    rfl
  have hagg : aggregateDaily data ext =
      List.insertionSort (fun a b => a.date ≤ b.date)
        (((List.range' mn (mx + 1 - mn)).foldl fillStep
            (buildGroups dayKeyF data).g).map (fun e => deriveDaily ext e.1 e.2)) := by
    rw [aggregateDaily, hGdef]
  set G := (List.range' mn (mx + 1 - mn)).foldl fillStep (buildGroups dayKeyF data).g
    with hG
  have hnd : (keysG G).Nodup :=
    nodup_keysG_fill _ _ (nodup_keysG_buildGroups _ _)
  have hmem : ∀ k, k ∈ keysG G ↔ k ∈ List.range' mn (mx + 1 - mn) := by
    intro k
    rw [hG, mem_keysG_fill, mem_keysG_buildGroups]
    constructor
    · rintro (hk | hk)
      · have h1 : mn ≤ k := (List.min?_eq_some_iff'.mp hmn).2 k hk
        have h2 : k ≤ mx := (List.max?_eq_some_iff'.mp hmx).2 k hk
        rw [List.mem_range'_1]
        omega
      · exact hk
    · intro hk
      right
      exact hk
  have hlookup : ∀ k ∈ List.range' mn (mx + 1 - mn),
      lookupG G k = some (accListRows (rowsFor dayKeyF data k)) := by
    intro k hk
    rw [hG, fill_lookup, lookupG_buildGroups]
    by_cases h : (rowsFor dayKeyF data k).isEmpty
    · have hacc : accListRows (rowsFor dayKeyF data k) = initAcc := by
        rw [accListRows, List.isEmpty_iff.mp h]
        rfl
      rw [if_pos h, hacc]
      simp [hk]
    · rw [if_neg h]
  have h1 : G.map (fun e => deriveDaily ext e.1 e.2) =
      (keysG G).map (fun k => deriveDaily ext k ((lookupG G k).getD initAcc)) :=
    map_eq_keys_map G _ hnd
  have h2 : (keysG G).map (fun k => deriveDaily ext k ((lookupG G k).getD initAcc)) =
      (keysG G).map
        (fun k => deriveDaily ext k (accListRows (rowsFor dayKeyF data k))) := by
    apply List.map_congr_left
    intro k hk
    rw [hlookup k ((hmem k).mp hk)]
    rfl
  have hperm : List.Perm (keysG G) (List.range' mn (mx + 1 - mn)) :=
    (List.perm_ext_iff_of_nodup hnd (List.nodup_range' ..)).mpr hmem
  have hperm2 : List.Perm (G.map (fun e => deriveDaily ext e.1 e.2))
      ((List.range' mn (mx + 1 - mn)).map
        (fun k => deriveDaily ext k (accListRows (rowsFor dayKeyF data k)))) := by
    rw [h1, h2]
    exact hperm.map _
  have hsorted : ((List.range' mn (mx + 1 - mn)).map
      (fun k => deriveDaily ext k (accListRows (rowsFor dayKeyF data k)))).Sorted
        (fun a b => a.date ≤ b.date) := by
    rw [List.Sorted, List.pairwise_map]
    apply List.Pairwise.imp ?_ (List.pairwise_lt_range' mn _ 1 Nat.one_pos)
    intro a b hab
    exact Nat.le_of_lt hab
  have hdates : (((List.range' mn (mx + 1 - mn)).map
      (fun k => deriveDaily ext k (accListRows (rowsFor dayKeyF data k)))).map
        (fun b => b.date)) = List.range' mn (mx + 1 - mn) := by
    rw [List.map_map]
    exact List.map_id _
  have hnodupd : (((List.range' mn (mx + 1 - mn)).map
      (fun k => deriveDaily ext k (accListRows (rowsFor dayKeyF data k)))).map
        (fun b => b.date)).Nodup := by
    rw [hdates]
    exact List.nodup_range' ..
  rw [hagg]
  exact eq_of_perm_sorted_buckets
    ((List.perm_insertionSort _ _).trans hperm2)
    (List.sorted_insertionSort _ _) hsorted hnodupd

/-- With no timestamped record at all, daily aggregation returns the empty
list. -/
theorem aggregateDaily_nil (data : List Row) (ext : Option PercMap)
    (h : data.filterMap dayKeyF = []) : aggregateDaily data ext = [] := by
  have hmin : (buildGroups dayKeyF data).minKey = none := by
    rw [buildGroups_minKey_eq, h]
    rfl
  have hmax : (buildGroups dayKeyF data).maxKey = none := by
    rw [buildGroups_maxKey_eq, h]
    rfl
  have hg : (buildGroups dayKeyF data).g = [] := by
    have hkeys : keysG (buildGroups dayKeyF data).g = [] := by
      cases hK : keysG (buildGroups dayKeyF data).g with
      | nil => rfl
      | cons a l =>
        have ha : a ∈ keysG (buildGroups dayKeyF data).g := by
          rw [hK]
          exact List.mem_cons_self a l
        rw [mem_keysG_buildGroups, h] at ha
        simp at ha
    exact List.map_eq_nil_iff.mp hkeys
  have hGdef : (match (buildGroups dayKeyF data).minKey,
      (buildGroups dayKeyF data).maxKey with
    | some mn, some mx => fillGaps (buildGroups dayKeyF data).g mn mx
    | _, _ => (buildGroups dayKeyF data).g) = (buildGroups dayKeyF data).g := by
    rw [hmin, hmax]
  rw [aggregateDaily, hGdef, hg]
  rfl

/-- Every bucket of `aggregateDaily` is derived from exactly the rows whose
day key is the bucket's date. -/
lemma mem_aggregateDaily (data : List Row) (ext : Option PercMap) (b : Bucket)
    (hb : b ∈ aggregateDaily data ext) :
    b = deriveDaily ext b.date (accListRows (rowsFor dayKeyF data b.date)) := by
  cases hfm : data.filterMap dayKeyF with
  | nil =>
    rw [aggregateDaily_nil data ext hfm] at hb
    simp at hb
  | cons a l =>
    have hmn : (data.filterMap dayKeyF).min? = some (l.foldl min a) := by
      rw [hfm]
      exact List.min?_cons'
    have hmx : (data.filterMap dayKeyF).max? = some (l.foldl max a) := by
      rw [hfm]
      exact List.max?_cons'
    rw [aggregateDaily_eq data ext _ _ hmn hmx] at hb
    obtain ⟨k, hk, hkb⟩ := List.mem_map.mp hb
    rw [← hkb]
    rfl

/-- Complete characterization of `aggregateHourly` on inputs with at least one
timestamped record. -/
theorem aggregateHourly_eq (data : List Row) (ext : Option PercMap) (mn mx : ℕ)
    (hmn : (data.filterMap hourKeyF).min? = some mn)
    (hmx : (data.filterMap hourKeyF).max? = some mx) :
    aggregateHourly data ext =
      (List.range' mn (mx + 1 - mn)).map
        (fun k => deriveHourly ext k (accListRows (rowsFor hourKeyF data k))) := by
  have hstmin : (buildGroups hourKeyF data).minKey = some mn := by
    rw [buildGroups_minKey_eq, hmn]
  have hstmax : (buildGroups hourKeyF data).maxKey = some mx := by
    rw [buildGroups_maxKey_eq, hmx]
  have hGdef : (match (buildGroups hourKeyF data).minKey,
      (buildGroups hourKeyF data).maxKey with
    | some mn, some mx => fillGaps (buildGroups hourKeyF data).g mn mx
    | _, _ => (buildGroups hourKeyF data).g) =
      (List.range' mn (mx + 1 - mn)).foldl fillStep (buildGroups hourKeyF data).g := by
    rw [hstmin, hstmax]
    rfl
  set G := (List.range' mn (mx + 1 - mn)).foldl fillStep (buildGroups hourKeyF data).g
    with hG
  have hagg : aggregateHourly data ext =
      (List.insertionSort (fun a b => a ≤ b) (keysG G)).map (fun k =>
        match lookupG G k with
        | some agg => deriveHourly ext k agg
        | none => mkBucket k initAcc none) := by
    rw [aggregateHourly, hGdef]
    rfl
  have hnd : (keysG G).Nodup :=
    nodup_keysG_fill _ _ (nodup_keysG_buildGroups _ _)
  have hmem : ∀ k, k ∈ keysG G ↔ k ∈ List.range' mn (mx + 1 - mn) := by
    intro k
    rw [hG, mem_keysG_fill, mem_keysG_buildGroups]
    constructor
    · rintro (hk | hk)
      · have h1 : mn ≤ k := (List.min?_eq_some_iff'.mp hmn).2 k hk
        have h2 : k ≤ mx := (List.max?_eq_some_iff'.mp hmx).2 k hk
        rw [List.mem_range'_1]
        omega
      · exact hk
    · intro hk
      right
      exact hk
  have hlookup : ∀ k ∈ List.range' mn (mx + 1 - mn),
      lookupG G k = some (accListRows (rowsFor hourKeyF data k)) := by
    intro k hk
    rw [hG, fill_lookup, lookupG_buildGroups]
    by_cases h : (rowsFor hourKeyF data k).isEmpty
    · have hacc : accListRows (rowsFor hourKeyF data k) = initAcc := by
        rw [accListRows, List.isEmpty_iff.mp h]
        rfl
      rw [if_pos h, hacc]
      simp [hk]
    · rw [if_neg h]
  have hperm : List.Perm (keysG G) (List.range' mn (mx + 1 - mn)) :=
    (List.perm_ext_iff_of_nodup hnd (List.nodup_range' ..)).mpr hmem
  have hkeys : List.insertionSort (fun a b => a ≤ b) (keysG G) =
      List.range' mn (mx + 1 - mn) := by
    apply List.eq_of_perm_of_sorted
      ((List.perm_insertionSort _ _).trans hperm)
      (List.sorted_insertionSort _ _)
    rw [List.Sorted]
    apply List.Pairwise.imp ?_ (List.pairwise_lt_range' mn _ 1 Nat.one_pos)
    intro a b hab
    exact Nat.le_of_lt hab
  rw [hagg, hkeys]
  apply List.map_congr_left
  intro k hk
  rw [hlookup k hk]

/-- With no timestamped record at all, hourly aggregation returns the empty
list. -/
theorem aggregateHourly_nil (data : List Row) (ext : Option PercMap)
    (h : data.filterMap hourKeyF = []) : aggregateHourly data ext = [] := by
  have hmin : (buildGroups hourKeyF data).minKey = none := by
    rw [buildGroups_minKey_eq, h]
    rfl
  have hmax : (buildGroups hourKeyF data).maxKey = none := by
    rw [buildGroups_maxKey_eq, h]
    rfl
  have hg : (buildGroups hourKeyF data).g = [] := by
    have hkeys : keysG (buildGroups hourKeyF data).g = [] := by
      cases hK : keysG (buildGroups hourKeyF data).g with
      | nil => rfl
      | cons a l =>
        have ha : a ∈ keysG (buildGroups hourKeyF data).g := by
          rw [hK]
          exact List.mem_cons_self a l
        rw [mem_keysG_buildGroups, h] at ha
        simp at ha
    exact List.map_eq_nil_iff.mp hkeys
  have hGdef : (match (buildGroups hourKeyF data).minKey,
      (buildGroups hourKeyF data).maxKey with
    | some mn, some mx => fillGaps (buildGroups hourKeyF data).g mn mx
    | _, _ => (buildGroups hourKeyF data).g) = (buildGroups hourKeyF data).g := by
    rw [hmin, hmax]
  rw [aggregateHourly, hGdef, hg]
  rfl

/-- Every bucket of `aggregateHourly` is derived from exactly the rows whose
date-hour key is the bucket's key. -/
lemma mem_aggregateHourly (data : List Row) (ext : Option PercMap) (b : Bucket)
    (hb : b ∈ aggregateHourly data ext) :
    b = deriveHourly ext b.date (accListRows (rowsFor hourKeyF data b.date)) := by
  cases hfm : data.filterMap hourKeyF with
  | nil =>
    rw [aggregateHourly_nil data ext hfm] at hb
    simp at hb
  | cons a l =>
    have hmn : (data.filterMap hourKeyF).min? = some (l.foldl min a) := by
      rw [hfm]
      exact List.min?_cons'
    have hmx : (data.filterMap hourKeyF).max? = some (l.foldl max a) := by
      rw [hfm]
      exact List.max?_cons'
    rw [aggregateHourly_eq data ext _ _ hmn hmx] at hb
    obtain ⟨k, hk, hkb⟩ := List.mem_map.mp hb
    rw [← hkb]
    rfl

/-! ### Unfolding the accumulator -/

/-- Contribution of one row to the weighted speed sum of its bucket:
`avg_speed * (vehicle_count || 1)` when the row carries a truthy `avg_speed`,
else 0. -/
def speedContrib (r : Row) : ℚ :=
  match r.avg_speed with
  | some s => if s ≠ 0 then s * (weightOf r.vehicles : ℚ) else 0
  | none => 0

/-- Speed-sample contribution of one row to its bucket's `speeds` list. -/
def speedListOf (r : Row) : List ℚ :=
  match r.avg_speed with
  | some s => if s ≠ 0 then [s] else []
  | none => []

/-- Direct-percentile contribution of one row to its bucket's `p85_values`. -/
def p85ListOf (r : Row) : List ℚ :=
  match r.p85 with
  | some v => if 0 < v then [v] else []
  | none => []

/-- Peak-speed update of one row. -/
def peakUpd (p : ℚ) (r : Row) : ℚ :=
  match r.peak_speed with
  | some ps => if ps ≠ 0 then max p ps else p
  | none => p

lemma accRow_eq (a : Acc) (r : Row) :
    accRow a r =
      ⟨a.vehicles + r.vehicles, a.violators + r.violators,
        a.sum_speeds + speedContrib r, peakUpd a.peak_speed r,
        a.speeds ++ speedListOf r, a.p85_values ++ p85ListOf r⟩ := by
  rw [accRow, speedContrib, speedListOf, p85ListOf, peakUpd]
  cases h1 : r.avg_speed <;> cases h2 : r.peak_speed <;> cases h3 : r.p85 <;>
    simp <;> split_ifs <;> simp

lemma accListRows_vehicles (rows : List Row) :
    ∀ a : Acc, (rows.foldl accRow a).vehicles =
      a.vehicles + (rows.map (fun r => r.vehicles)).sum := by
  induction rows with
  | nil => intro a; simp
  | cons r rows ih =>
    intro a
    rw [List.foldl_cons, ih (accRow a r), accRow_eq]
    simp
    omega

lemma accListRows_sum_speeds (rows : List Row) :
    ∀ a : Acc, (rows.foldl accRow a).sum_speeds =
      a.sum_speeds + (rows.map speedContrib).sum := by
  induction rows with
  | nil => intro a; simp
  | cons r rows ih =>
    intro a
    rw [List.foldl_cons, ih (accRow a r), accRow_eq]
    simp
    ring

/-! ### Vehicle-count conservation helpers (C8) -/

/-- Total vehicles accumulated in a group map. -/
def sumVeh (g : Groups) : ℕ := (g.map (fun e => e.2.vehicles)).sum

lemma sumVeh_updateG (g : Groups) (k : ℕ) (f : Acc → Acc) (d : ℕ)
    (hk : hasKeyG g k = true) (hf : ∀ a, (f a).vehicles = a.vehicles + d) :
    sumVeh (updateG g k f) = sumVeh g + d := by
  induction g with
  | nil => simp [hasKeyG] at hk
  | cons e g ih =>
    rw [updateG]
    by_cases he : e.1 = k
    · rw [if_pos he]
      simp [sumVeh, hf e.2]
      omega
    · rw [if_neg he]
      have hk2 : hasKeyG g k = true := by
        have h0 : (decide (e.1 = k) || hasKeyG g k) = true := hk
        simpa [he] using h0
      simp [sumVeh] at ih ⊢
      rw [ih hk2]
      omega

lemma sumVeh_insertRowG (g : Groups) (k : ℕ) (row : Row) :
    sumVeh (insertRowG g k row) = sumVeh g + row.vehicles := by
  rw [insertRowG]
  have hf : ∀ a : Acc, (accRow a row).vehicles = a.vehicles + row.vehicles := by
    intro a
    rw [accRow_eq]
  by_cases h : hasKeyG g k
  · rw [if_pos h]
    exact sumVeh_updateG g k _ row.vehicles h hf
  · rw [if_neg h]
    have hk2 : hasKeyG (g ++ [(k, initAcc)]) k = true := by
      rw [hasKeyG_eq_isSome, lookupG_append]
      cases hl : lookupG g k with
      | some a => simp
      | none => simp [lookupG_cons]
    rw [sumVeh_updateG _ k _ row.vehicles hk2 hf]
    simp [sumVeh, initAcc]

lemma sumVeh_build (key : Row → Option ℕ) (data : List Row) :
    ∀ st : BuildSt,
      sumVeh (data.foldl (buildStep key) st).g =
        sumVeh st.g +
          ((data.filter (fun r => (key r).isSome)).map (fun r => r.vehicles)).sum := by
  induction data with
  | nil => intro st; simp
  | cons r data ih =>
    intro st
    rw [List.foldl_cons]
    cases hkr : key r with
    | none =>
      have hstep : buildStep key st r = st := by rw [buildStep, hkr]
      rw [hstep, ih st, List.filter_cons]
      simp [hkr]
    | some k0 =>
      have hstep : (buildStep key st r).g = insertRowG st.g k0 r := by
        rw [buildStep, hkr]
      rw [ih (buildStep key st r), hstep, sumVeh_insertRowG, List.filter_cons]
      simp [hkr]
      omega

lemma sumVeh_fill (ks : List ℕ) :
    ∀ g : Groups, sumVeh (ks.foldl fillStep g) = sumVeh g := by
  induction ks with
  | nil => intro g; rfl
  | cons k0 ks ih =>
    intro g
    rw [List.foldl_cons, ih (fillStep g k0), fillStep]
    by_cases h : hasKeyG g k0
    · rw [if_pos h]
    · rw [if_neg h]
      simp [sumVeh, initAcc]

/-! ### Derived-field helpers -/

lemma resolveP85_initAcc (ext : Option PercMap) (k : ℕ) :
    resolveP85 ext k initAcc = extP85 ext k := by
  cases h : extP85 ext k <;> simp [resolveP85, h, initAcc]

lemma resolveP85_ext (ext : Option PercMap) (k : ℕ) (agg : Acc) (v : ℚ)
    (hl : extP85 ext k = some v) : resolveP85 ext k agg = some v := by
  simp [resolveP85, hl]

lemma extP85_lookup (m : PercMap) (k : ℕ) (e : DayPercentiles)
    (hm : lookupPM m k = some e) (he : e.p85 ≠ 0) :
    extP85 (some m) k = some e.p85 := by
  simp [extP85, hm, he]

lemma mkBucket_inv (k : ℕ) (agg : Acc) (p : Option ℚ) :
    (mkBucket k agg p).non_speeders =
        ((mkBucket k agg p).vehicles : ℤ) - ((mkBucket k agg p).violators : ℤ)
    ∧ ((mkBucket k agg p).vehicles = 0 → (mkBucket k agg p).pct_speeders = none)
    ∧ (0 < (mkBucket k agg p).vehicles →
        (mkBucket k agg p).pct_speeders =
          some (((mkBucket k agg p).violators : ℚ) /
            ((mkBucket k agg p).vehicles : ℚ) * 100)) := by
  refine ⟨rfl, ?_, ?_⟩
  · intro h
    have hz : agg.vehicles = 0 := h
    simp [mkBucket, hz]
  · intro h
    have hp : 0 < agg.vehicles := h
    simp [mkBucket, hp]

/-- C9: every bucket produced by daily or hourly aggregation satisfies
`non_speeders = vehicles - violators`; `pct_speeders` is null exactly on
zero-vehicle buckets and otherwise equals `violators / vehicles * 100`. -/
theorem bucket_speeders_invariants (data : List Row) (ext : Option PercMap) :
    (∀ b ∈ aggregateDaily data ext,
      b.non_speeders = (b.vehicles : ℤ) - (b.violators : ℤ)
      ∧ (b.vehicles = 0 → b.pct_speeders = none)
      ∧ (0 < b.vehicles →
          b.pct_speeders = some ((b.violators : ℚ) / (b.vehicles : ℚ) * 100)))
    ∧ (∀ b ∈ aggregateHourly data ext,
      b.non_speeders = (b.vehicles : ℤ) - (b.violators : ℤ)
      ∧ (b.vehicles = 0 → b.pct_speeders = none)
      ∧ (0 < b.vehicles →
          b.pct_speeders = some ((b.violators : ℚ) / (b.vehicles : ℚ) * 100))) := by
  constructor
  · intro b hb
    rw [mem_aggregateDaily data ext b hb]
    exact mkBucket_inv _ _ _
  · intro b hb
    rw [mem_aggregateHourly data ext b hb]
    exact mkBucket_inv _ _ _

/-- C9 witness: the invariants instantiated on a concrete one-record input
with 4 vehicles and 1 violator. -/
theorem bucket_speeders_invariants_witness :
    (deriveDaily none 0 (accListRows (rowsFor dayKeyF
        [⟨some 0, 4, 1, none, none, none⟩] 0))).non_speeders =
      ((deriveDaily none 0 (accListRows (rowsFor dayKeyF
        [⟨some 0, 4, 1, none, none, none⟩] 0))).vehicles : ℤ) -
      ((deriveDaily none 0 (accListRows (rowsFor dayKeyF
        [⟨some 0, 4, 1, none, none, none⟩] 0))).violators : ℤ) := by
  have hmem : deriveDaily none 0 (accListRows (rowsFor dayKeyF
      [⟨some 0, 4, 1, none, none, none⟩] 0)) ∈
      aggregateDaily [⟨some 0, 4, 1, none, none, none⟩] none := by
    rw [aggregateDaily_eq [⟨some 0, 4, 1, none, none, none⟩] none 0 0
      (by decide) (by decide)]
    exact List.mem_map_of_mem _ (by decide)
  exact ((bucket_speeders_invariants [⟨some 0, 4, 1, none, none, none⟩] none).1
    _ hmem).1

/-- C7 (amended): daily aggregation emits exactly one bucket per calendar day
between the minimum and maximum observed day, in chronological order; a day
with no records gets zero vehicles/violators and null speed/peak, and its p85
is null unless the external percentile map supplies a nonzero p85 for that
day, in which case the map's value is used. -/
theorem aggregateDaily_gap_filling (data : List Row) (ext : Option PercMap)
    (mn mx : ℕ)
    (hmn : (data.filterMap dayKeyF).min? = some mn)
    (hmx : (data.filterMap dayKeyF).max? = some mx) :
    (aggregateDaily data ext).map (fun b => b.date) = List.range' mn (mx + 1 - mn)
    ∧ ∀ b ∈ aggregateDaily data ext, rowsFor dayKeyF data b.date = [] →
        b.vehicles = 0 ∧ b.violators = 0 ∧ b.avg_speed = none
        ∧ b.peak_speed = none ∧ b.p85 = extP85 ext b.date := by
  constructor
  · rw [aggregateDaily_eq data ext mn mx hmn hmx, List.map_map]
    exact List.map_id _
  · intro b hb
    rw [aggregateDaily_eq data ext mn mx hmn hmx] at hb
    obtain ⟨k, hk, hkb⟩ := List.mem_map.mp hb
    rw [← hkb]
    simp only [date_deriveDaily]
    intro hrows
    rw [hrows]
    refine ⟨rfl, rfl, ?_, ?_, ?_⟩
    · simp [deriveDaily, mkBucket, accListRows, initAcc]
    · simp [deriveDaily, mkBucket, accListRows, initAcc]
    · show resolveP85 ext k (accListRows []) = extP85 ext k
      exact resolveP85_initAcc ext k

/-- C7 witness: records only on day 0 and day 4 (with no external map) yield
five buckets for days 0-4, and the day-2 gap bucket has zero vehicles and
null p85. -/
theorem aggregateDaily_gap_filling_witness :
    (aggregateDaily
        [⟨some 0, 1, 0, none, none, none⟩, ⟨some 96, 2, 1, none, none, none⟩]
        none).map (fun b => b.date) = [0, 1, 2, 3, 4]
    ∧ (deriveDaily none 2 (accListRows (rowsFor dayKeyF
        [⟨some 0, 1, 0, none, none, none⟩, ⟨some 96, 2, 1, none, none, none⟩]
        2))).vehicles = 0
    ∧ (deriveDaily none 2 (accListRows (rowsFor dayKeyF
        [⟨some 0, 1, 0, none, none, none⟩, ⟨some 96, 2, 1, none, none, none⟩]
        2))).p85 = none := by
  have hthm := aggregateDaily_gap_filling
    [⟨some 0, 1, 0, none, none, none⟩, ⟨some 96, 2, 1, none, none, none⟩]
    none 0 4 (by decide) (by decide)
  have hmem : deriveDaily none 2 (accListRows (rowsFor dayKeyF
      [⟨some 0, 1, 0, none, none, none⟩, ⟨some 96, 2, 1, none, none, none⟩] 2)) ∈
      aggregateDaily
        [⟨some 0, 1, 0, none, none, none⟩, ⟨some 96, 2, 1, none, none, none⟩]
        none := by
    rw [aggregateDaily_eq
      [⟨some 0, 1, 0, none, none, none⟩, ⟨some 96, 2, 1, none, none, none⟩]
      none 0 4 (by decide) (by decide)]
    exact List.mem_map_of_mem _ (by decide)
  have hgap := hthm.2 _ hmem (by decide)
  exact ⟨hthm.1, hgap.1, hgap.2.2.2.2.trans rfl⟩

/-- C7 counterexample: a gap day does not always get a null p85 — when the
external percentile map has a nonzero entry for that day, the gap bucket
carries the external value. -/
theorem aggregateDaily_gap_p85_counterexample :
    ¬(∀ b ∈ aggregateDaily
        [⟨some 0, 1, 0, none, none, none⟩, ⟨some 96, 2, 1, none, none, none⟩]
        (some [(1, ⟨0, 30⟩)]),
      rowsFor dayKeyF
        [⟨some 0, 1, 0, none, none, none⟩, ⟨some 96, 2, 1, none, none, none⟩]
        b.date = [] → b.p85 = none) := by
  intro hall
  have hmem : deriveDaily (some [(1, ⟨0, 30⟩)]) 1 (accListRows (rowsFor dayKeyF
      [⟨some 0, 1, 0, none, none, none⟩, ⟨some 96, 2, 1, none, none, none⟩] 1)) ∈
      aggregateDaily
        [⟨some 0, 1, 0, none, none, none⟩, ⟨some 96, 2, 1, none, none, none⟩]
        (some [(1, ⟨0, 30⟩)]) := by
    rw [aggregateDaily_eq
      [⟨some 0, 1, 0, none, none, none⟩, ⟨some 96, 2, 1, none, none, none⟩]
      (some [(1, ⟨0, 30⟩)]) 0 4 (by decide) (by decide)]
    exact List.mem_map_of_mem _ (by decide)
  have hrows : rowsFor dayKeyF
      [⟨some 0, 1, 0, none, none, none⟩, ⟨some 96, 2, 1, none, none, none⟩] 1 =
      [] := by decide
  have h := hall _ hmem (by simp only [date_deriveDaily]; exact hrows)
  simp only [date_deriveDaily] at h
  rw [hrows] at h
  have hc : (deriveDaily (some [(1, ⟨0, 30⟩)]) 1 (accListRows [])).p85 =
      some 30 := by
    show resolveP85 (some [(1, ⟨0, 30⟩)]) 1 initAcc = some 30
    rw [resolveP85_initAcc]
    norm_num [extP85, lookupPM, List.find?_cons]
  rw [hc] at h
  simp at h

/-- C8: the sum of the `vehicles` field over all daily buckets equals the sum
of `vehicle_count` over all input records that have a timestamp. -/
theorem vehicles_conserved (data : List Row) (ext : Option PercMap) :
    ((aggregateDaily data ext).map (fun b => b.vehicles)).sum =
      ((data.filter (fun r => r.datetime.isSome)).map (fun r => r.vehicles)).sum := by
  have hsort : ∀ g : Groups,
      ((List.insertionSort (fun a b => a.date ≤ b.date)
        (g.map (fun e => deriveDaily ext e.1 e.2))).map (fun b => b.vehicles)).sum =
        sumVeh g := by
    intro g
    have hp := (List.perm_insertionSort (fun a b => a.date ≤ b.date)
      (g.map (fun e => deriveDaily ext e.1 e.2))).map (fun b => b.vehicles)
    rw [hp.sum_eq, List.map_map]
    rfl
  have hfilter : (data.filter (fun r => (dayKeyF r).isSome)) =
      (data.filter (fun r => r.datetime.isSome)) := by
    apply List.filter_congr
    intro r _
    simp [dayKeyF]
  have hbuild : sumVeh (buildGroups dayKeyF data).g =
      ((data.filter (fun r => r.datetime.isSome)).map (fun r => r.vehicles)).sum := by
    rw [buildGroups, sumVeh_build dayKeyF data ⟨[], none, none⟩, hfilter]
    simp [sumVeh]
  rw [aggregateDaily]
  cases hmin : (buildGroups dayKeyF data).minKey with
  | none =>
    cases hmax : (buildGroups dayKeyF data).maxKey with
    | none => rw [hsort, hbuild]
    | some mx => rw [hsort, hbuild]
  | some mn =>
    cases hmax : (buildGroups dayKeyF data).maxKey with
    | none => rw [hsort, hbuild]
    | some mx =>
      have hred : (match some mn, some mx with
          | some mn, some mx => fillGaps (buildGroups dayKeyF data).g mn mx
          | _, _ => (buildGroups dayKeyF data).g) =
          fillGaps (buildGroups dayKeyF data).g mn mx := rfl
      rw [hred, hsort, fillGaps_eq_foldl, sumVeh_fill, hbuild]

/-- C3 (amended): a bucket's `avg_speed` is null exactly when the bucket's
total vehicle count is zero — not when the bucket has no speed evidence; when
vehicles > 0 it equals the accumulated weighted speed sum
(`Σ avg_speed · (vehicle_count || 1)` over the bucket's records with truthy
`avg_speed`) divided by the bucket's total vehicle count. -/
theorem avg_speed_characterization (data : List Row) (ext : Option PercMap) :
    (∀ b ∈ aggregateDaily data ext,
      (b.avg_speed = none ↔ b.vehicles = 0)
      ∧ (0 < b.vehicles →
          b.avg_speed = some
            (((rowsFor dayKeyF data b.date).map speedContrib).sum /
              (b.vehicles : ℚ))))
    ∧ (∀ b ∈ aggregateHourly data ext,
      (b.avg_speed = none ↔ b.vehicles = 0)
      ∧ (0 < b.vehicles →
          b.avg_speed = some
            (((rowsFor hourKeyF data b.date).map speedContrib).sum /
              (b.vehicles : ℚ)))) := by
  have hmk : ∀ (k : ℕ) (rows : List Row) (p : Option ℚ),
      ((mkBucket k (accListRows rows) p).avg_speed = none ↔
        (mkBucket k (accListRows rows) p).vehicles = 0)
      ∧ (0 < (mkBucket k (accListRows rows) p).vehicles →
          (mkBucket k (accListRows rows) p).avg_speed = some
            ((rows.map speedContrib).sum /
              ((mkBucket k (accListRows rows) p).vehicles : ℚ))) := by
    intro k rows p
    constructor
    · show ((if 0 < (accListRows rows).vehicles then
          some ((accListRows rows).sum_speeds / ((accListRows rows).vehicles : ℚ))
        else none) = none) ↔ (accListRows rows).vehicles = 0
      by_cases h : 0 < (accListRows rows).vehicles
      · rw [if_pos h]
        simp
        omega
      · rw [if_neg h]
        simp
        omega
    · intro h
      have hpos : 0 < (accListRows rows).vehicles := h
      show (if 0 < (accListRows rows).vehicles then
          some ((accListRows rows).sum_speeds / ((accListRows rows).vehicles : ℚ))
        else none) = _
      rw [if_pos hpos]
      have hss : (accListRows rows).sum_speeds = (rows.map speedContrib).sum := by
        rw [accListRows, accListRows_sum_speeds]
        show (0 : ℚ) + _ = _
        rw [zero_add]
      rw [hss]
      rfl
  constructor
  · intro b hb
    rw [mem_aggregateDaily data ext b hb]
    have h := hmk b.date (rowsFor dayKeyF data b.date) (resolveP85 ext b.date
      (accListRows (rowsFor dayKeyF data b.date)))
    exact h
  · intro b hb
    rw [mem_aggregateHourly data ext b hb]
    have h := hmk b.date (rowsFor hourKeyF data b.date) (resolveP85 ext (b.date / 24)
      (accListRows (rowsFor hourKeyF data b.date)))
    exact h

/-- C3 counterexample: a record with 5 vehicles and no `avg_speed` produces a
bucket whose `avg_speed` is `some 0`, not null, although no record carried any
speed evidence. -/
theorem avg_speed_null_counterexample :
    (aggregateDaily [⟨some 0, 5, 0, none, none, none⟩] none).map
        (fun b => b.avg_speed) = [some 0]
    ∧ (aggregateDaily [⟨some 0, 5, 0, none, none, none⟩] none).map
        (fun b => b.avg_speed) ≠ [none] := by
  have h : aggregateDaily [⟨some 0, 5, 0, none, none, none⟩] none =
      [deriveDaily none 0 (accListRows (rowsFor dayKeyF
        [⟨some 0, 5, 0, none, none, none⟩] 0))] := by
    rw [aggregateDaily_eq [⟨some 0, 5, 0, none, none, none⟩] none 0 0
      (by decide) (by decide)]
    rfl
  have hrows : rowsFor dayKeyF [⟨some 0, 5, 0, none, none, none⟩] 0 =
      [⟨some 0, 5, 0, none, none, none⟩] := by
    simp [rowsFor, List.filter_cons, dayKeyF]
  have havg : (deriveDaily none 0 (accListRows (rowsFor dayKeyF
      [⟨some 0, 5, 0, none, none, none⟩] 0))).avg_speed = some 0 := by
    rw [hrows]
    show (if 0 < (accListRows [⟨some 0, 5, 0, none, none, none⟩]).vehicles then
        some ((accListRows [⟨some 0, 5, 0, none, none, none⟩]).sum_speeds /
          ((accListRows [⟨some 0, 5, 0, none, none, none⟩]).vehicles : ℚ))
      else none) = some 0
    have hacc : accListRows [⟨some 0, 5, 0, none, none, none⟩] =
        ⟨5, 0, 0, 0, [], []⟩ := by
      rw [accListRows, List.foldl_cons, List.foldl_nil, accRow_eq]
      norm_num [initAcc, speedContrib, speedListOf, p85ListOf, peakUpd]
    rw [hacc]
    norm_num
  rw [h]
  constructor
  · rw [List.map_cons, List.map_nil, havg]
  · rw [List.map_cons, List.map_nil, havg]
    simp

/-- C2 (amended): when the external percentile map has an entry with a
nonzero p85 for a bucket's date, the bucket's resolved p85 is the external
value, even when records of that bucket carry direct positive p85 values.  (A
zero or missing p85 in the map entry is treated as absent, in which case the
direct values are averaged instead.) -/
theorem external_p85_priority (data : List Row) (m : PercMap) (b : Bucket)
    (hb : b ∈ aggregateDaily data (some m))
    (hdirect : ∃ r ∈ data, dayKeyF r = some b.date ∧ ∃ v, r.p85 = some v ∧ 0 < v)
    (e : DayPercentiles) (he : lookupPM m b.date = some e) (hz : e.p85 ≠ 0) :
    b.p85 = some e.p85 := by
  have hext : extP85 (some m) b.date = some e.p85 := extP85_lookup m b.date e he hz
  have h1 : b.p85 =
      resolveP85 (some m) b.date (accListRows (rowsFor dayKeyF data b.date)) := by
    rw [mem_aggregateDaily data (some m) b hb]
    rfl
  rw [h1]
  exact resolveP85_ext _ _ _ _ hext

/-- C2 witness: a bucket with a direct p85 of 30 and an external entry of 40
resolves to 40. -/
theorem external_p85_priority_witness :
    (deriveDaily (some [(0, ⟨0, 40⟩)]) 0 (accListRows (rowsFor dayKeyF
        [⟨some 0, 1, 0, none, none, some 30⟩] 0))).p85 = some ((⟨0, 40⟩ :
        DayPercentiles).p85) := by
  have hmem : deriveDaily (some [(0, ⟨0, 40⟩)]) 0 (accListRows (rowsFor dayKeyF
      [⟨some 0, 1, 0, none, none, some 30⟩] 0)) ∈
      aggregateDaily [⟨some 0, 1, 0, none, none, some 30⟩] (some [(0, ⟨0, 40⟩)]) := by
    rw [aggregateDaily_eq [⟨some 0, 1, 0, none, none, some 30⟩]
      (some [(0, ⟨0, 40⟩)]) 0 0 (by decide) (by decide)]
    exact List.mem_map_of_mem _ (by decide)
  apply external_p85_priority [⟨some 0, 1, 0, none, none, some 30⟩]
    [(0, ⟨0, 40⟩)] _ hmem
  · refine ⟨⟨some 0, 1, 0, none, none, some 30⟩, by simp, ?_, 30, rfl, by norm_num⟩
    simp [dayKeyF, date_deriveDaily]
  · simp only [date_deriveDaily]
    simp [lookupPM, List.find?_cons]
  · norm_num

/-- C2 counterexample: with an external entry whose p85 is 0 and a record
carrying a direct p85 of 30, the bucket resolves to 30 (the direct average),
not to the external entry's value — so "contains an entry" alone does not
give the external map priority. -/
theorem external_p85_zero_counterexample :
    ¬(∀ b ∈ aggregateDaily [⟨some 0, 1, 0, none, none, some 30⟩]
        (some [(0, ⟨0, 0⟩)]),
      ∀ e, lookupPM [(0, ⟨0, 0⟩)] b.date = some e → b.p85 = some e.p85) := by
  intro hall
  have hmem : deriveDaily (some [(0, ⟨0, 0⟩)]) 0 (accListRows (rowsFor dayKeyF
      [⟨some 0, 1, 0, none, none, some 30⟩] 0)) ∈
      aggregateDaily [⟨some 0, 1, 0, none, none, some 30⟩] (some [(0, ⟨0, 0⟩)]) := by
    rw [aggregateDaily_eq [⟨some 0, 1, 0, none, none, some 30⟩]
      (some [(0, ⟨0, 0⟩)]) 0 0 (by decide) (by decide)]
    exact List.mem_map_of_mem _ (by decide)
  have hlook : lookupPM [(0, ⟨0, 0⟩)] (deriveDaily (some [(0, ⟨0, 0⟩)]) 0
      (accListRows (rowsFor dayKeyF [⟨some 0, 1, 0, none, none, some 30⟩] 0))).date =
      some ⟨0, 0⟩ := by
    simp only [date_deriveDaily]
    simp [lookupPM, List.find?_cons]
  have h := hall _ hmem ⟨0, 0⟩ hlook
  have hrows : rowsFor dayKeyF [⟨some 0, 1, 0, none, none, some 30⟩] 0 =
      [⟨some 0, 1, 0, none, none, some 30⟩] := by
    simp [rowsFor, List.filter_cons, dayKeyF]
  have hc : (deriveDaily (some [(0, ⟨0, 0⟩)]) 0 (accListRows (rowsFor dayKeyF
      [⟨some 0, 1, 0, none, none, some 30⟩] 0))).p85 = some 30 := by
    rw [hrows]
    show resolveP85 (some [(0, ⟨0, 0⟩)]) 0
      (accListRows [⟨some 0, 1, 0, none, none, some 30⟩]) = some 30
    have hacc : accListRows [⟨some 0, 1, 0, none, none, some 30⟩] =
        ⟨1, 0, 0, 0, [], [30]⟩ := by
      rw [accListRows, List.foldl_cons, List.foldl_nil, accRow_eq]
      norm_num [initAcc, speedContrib, speedListOf, p85ListOf, peakUpd]
    rw [hacc]
    have hext : extP85 (some [(0, ⟨0, 0⟩)]) 0 = none := by
      simp [extP85, lookupPM, List.find?_cons]
    rw [resolveP85, hext]
    norm_num [average, sum]
  rw [hc] at h
  have : (30 : ℚ) = 0 := by
    have h2 := h
    injection h2
  norm_num at this

/-- C3 witness: a record with 2 vehicles and average speed 30 yields a bucket
whose `avg_speed` is the weighted sum divided by the vehicle total. -/
theorem avg_speed_characterization_witness :
    (deriveDaily none 0 (accListRows (rowsFor dayKeyF
        [⟨some 0, 2, 0, some 30, none, none⟩] 0))).avg_speed =
      some (((rowsFor dayKeyF [⟨some 0, 2, 0, some 30, none, none⟩] 0).map
          speedContrib).sum /
        ((deriveDaily none 0 (accListRows (rowsFor dayKeyF
          [⟨some 0, 2, 0, some 30, none, none⟩] 0))).vehicles : ℚ)) := by
  have hmem : deriveDaily none 0 (accListRows (rowsFor dayKeyF
      [⟨some 0, 2, 0, some 30, none, none⟩] 0)) ∈
      aggregateDaily [⟨some 0, 2, 0, some 30, none, none⟩] none := by
    rw [aggregateDaily_eq [⟨some 0, 2, 0, some 30, none, none⟩] none 0 0
      (by decide) (by decide)]
    exact List.mem_map_of_mem _ (by decide)
  have hrows : rowsFor dayKeyF [⟨some 0, 2, 0, some 30, none, none⟩] 0 =
      [⟨some 0, 2, 0, some 30, none, none⟩] := by
    simp [rowsFor, List.filter_cons, dayKeyF]
  have hveh : (deriveDaily none 0 (accListRows (rowsFor dayKeyF
      [⟨some 0, 2, 0, some 30, none, none⟩] 0))).vehicles = 2 := by
    show (accListRows (rowsFor dayKeyF
      [⟨some 0, 2, 0, some 30, none, none⟩] 0)).vehicles = 2
    rw [hrows, accListRows, List.foldl_cons, List.foldl_nil, accRow_eq]
    rfl
  exact ((avg_speed_characterization [⟨some 0, 2, 0, some 30, none, none⟩]
    none).1 _ hmem).2 (by rw [hveh]; norm_num)

/-- C1 (amended): in `calculateStats` the externally extracted percentile map
is the FIRST tier: whenever it is supplied and carries at least one positive
per-date p85 value, the overall p85 is the average of those positive values,
regardless of any supplied per-vehicle speed observations.  Per-vehicle speeds
are only consulted when the external tier yields nothing. -/
theorem stats_p85_external_first (data : List Row)
    (pvd : Option (List VehicleObs)) (m : PercMap) (hd : ¬data.isEmpty)
    (hpos : ¬((m.map (fun e => e.2.p85)).filter (fun v => 0 < v)).isEmpty) :
    (calculateStats data pvd (some m)).p85 =
      some (average ((m.map (fun e => e.2.p85)).filter (fun v => 0 < v))) := by
  have hm : ¬m.isEmpty := by
    intro h
    apply hpos
    rw [List.isEmpty_iff.mp h]
    rfl
  rw [calculateStats.eq_def, if_neg hd]
  simp [hm, hpos]

/-- C1 witness: the external-first rule on a concrete input with a supplied
per-vehicle observation list and an external map entry of 30. -/
theorem stats_p85_external_first_witness :
    (calculateStats [⟨none, 0, 0, none, none, none⟩] (some [⟨10⟩])
        (some [(0, ⟨0, 30⟩)])).p85 =
      some (average ((([(0, ⟨0, 30⟩)] : PercMap).map (fun e => e.2.p85)).filter
        (fun v => 0 < v))) :=
  stats_p85_external_first [⟨none, 0, 0, none, none, none⟩] (some [⟨10⟩])
    [(0, ⟨0, 30⟩)] (by decide) (by norm_num [List.filter_cons])

/-- C1 counterexample: with both a non-empty per-vehicle observation list
(speed 10) and a non-empty external map (p85 = 30) supplied, `calculateStats`
returns the external average 30, not `percentileFromSamples` of the
per-vehicle speeds (which would be 10). -/
theorem stats_p85_counterexample :
    (calculateStats [⟨none, 0, 0, none, none, none⟩] (some [⟨10⟩])
        (some [(0, ⟨0, 30⟩)])).p85 = some 30
    ∧ (calculateStats [⟨none, 0, 0, none, none, none⟩] (some [⟨10⟩])
        (some [(0, ⟨0, 30⟩)])).p85 ≠
      some (calculate85thPercentile
        ((([⟨10⟩] : List VehicleObs).map (fun v => v.speed)).filter
          (fun s => 0 < s))) := by
  have h1 : (calculateStats [⟨none, 0, 0, none, none, none⟩] (some [⟨10⟩])
      (some [(0, ⟨0, 30⟩)])).p85 = some 30 := by
    rw [calculateStats.eq_def, if_neg (by decide)]
    norm_num [average, sum, List.filter_cons]
  have h2 : calculate85thPercentile
      ((([⟨10⟩] : List VehicleObs).map (fun v => v.speed)).filter
        (fun s => 0 < s)) = 10 := by
    have hl : (([⟨10⟩] : List VehicleObs).map (fun v => v.speed)).filter
        (fun s => 0 < s) = [10] := by
      norm_num [List.filter_cons]
    have hemp : ([(10 : ℚ)]).isEmpty = false := rfl
    have hsort1 : List.insertionSort (fun a b => a ≤ b) [(10 : ℚ)] = [(10 : ℚ)] := rfl
    rw [hl]
    simp only [calculate85thPercentile, hemp, Bool.false_eq_true, if_false, hsort1,
      List.length_singleton]
    rw [show (⌈(85 / 100 : ℚ) * ((1 : ℕ) : ℚ)⌉ : ℤ) = 1 from by
      rw [Int.ceil_eq_iff]
      norm_num]
    rfl
  refine ⟨h1, ?_⟩
  rw [h1, h2]
  norm_num

/-- C5: `calculate85thPercentile` implements the nearest-rank method: on a
non-empty list it returns the entry of the ascending sort at index
`ceil(0.85 * n) - 1` clamped to `[0, n-1]`; on `[1..100]` it returns 85; on
the empty list it returns 0. -/
theorem percentile_nearest_rank :
    (∀ values : List ℚ, values ≠ [] →
      calculate85thPercentile values =
        (List.insertionSort (fun a b => a ≤ b) values).getD
          (min (values.length - 1)
            (max 0 (⌈(85 / 100 : ℚ) * values.length⌉ - 1)).toNat) 0)
    ∧ calculate85thPercentile
        ((List.range 100).map (fun i => ((i + 1 : ℕ) : ℚ))) = 85
    ∧ calculate85thPercentile [] = 0 := by
  refine ⟨?_, ?_, rfl⟩
  · intro values hne
    have hemp : values.isEmpty = false := by
      simpa [List.isEmpty_iff] using hne
    simp only [calculate85thPercentile, hemp, Bool.false_eq_true, if_false]
    have hlen : (List.insertionSort (fun a b => a ≤ b) values).length =
        values.length := List.length_insertionSort _ _
    rw [hlen]
    have hn : 1 ≤ values.length := by
      cases values with
      | nil => exact absurd rfl hne
      | cons a l => simp
    have hceil : ⌈(85 / 100 : ℚ) * values.length⌉ ≤ (values.length : ℤ) := by
      apply Int.ceil_le.mpr
      push_cast
      have hnn : (0 : ℚ) ≤ (values.length : ℚ) := by positivity
      nlinarith
    have hidx : (max 0 (⌈(85 / 100 : ℚ) * values.length⌉ - 1)).toNat ≤
        values.length - 1 := by
      omega
    rw [Nat.min_eq_right hidx]
  · have hsorted : ((List.range 100).map (fun i => ((i + 1 : ℕ) : ℚ))).Sorted
        (fun a b => a ≤ b) := by
      refine List.Pairwise.map _ ?_ (List.pairwise_lt_range 100)
      intro a b hab
      exact_mod_cast Nat.succ_le_succ (Nat.le_of_lt hab)
    have hemp : ((List.range 100).map (fun i => ((i + 1 : ℕ) : ℚ))).isEmpty =
        false := by
      decide
    simp only [calculate85thPercentile, hemp, Bool.false_eq_true, if_false]
    rw [hsorted.insertionSort_eq]
    rw [List.length_map, List.length_range]
    rw [show (⌈(85 / 100 : ℚ) * ((100 : ℕ) : ℚ)⌉ : ℤ) = 85 from by norm_num]
    rw [show (max 0 ((85 : ℤ) - 1)).toNat = 84 from by decide]
    rw [List.getD_eq_getElem _ _ (by simp)]
    simp
    norm_num

/-- C5 witness: the nearest-rank formula applied to the singleton list. -/
theorem percentile_nearest_rank_witness :
    calculate85thPercentile [(3 : ℚ)] =
      (List.insertionSort (fun a b => a ≤ b) [(3 : ℚ)]).getD
        (min ([(3 : ℚ)].length - 1)
          (max 0 (⌈(85 / 100 : ℚ) * [(3 : ℚ)].length⌉ - 1)).toNat) 0 :=
  percentile_nearest_rank.1 [(3 : ℚ)] (by simp)

end TrafficStats
